import Mathlib

/-!
# Verification of the filename-preservation core of `app-demo-upload-file-to-db-vector`

Shallow embedding of `src/backend/src/services/blobService.ts` (the upload and
listing handlers and the filename codec) together with the display logic of
`src/frontend/src/components/file_list.tsx`.

Modelling conventions:
* A JavaScript string is modelled as its list of Unicode code points
  (`Str := List Nat`); a code point produced by a well-formed JS string is a
  Unicode scalar value (`ValidCodePoint`).
* `Buffer.from(s).toString('base64')` is modelled as base64 over the UTF-8
  bytes of `s` (`base64Encode ∘ utf8Encode`).
* `Buffer.from(t, 'base64').toString()` is modelled by the *lenient* decoders
  `sextetsToBytes ∘ filterMap decodeB64Code` (Node's base64 parser skips
  characters outside the alphabet and never throws) followed by
  `utf8DecodeLenient` (Node's UTF-8 decoder replaces invalid sequences with
  U+FFFD and never throws).
* Run-time nondeterminism (the clock reading interpolated into the blob name,
  the `Math.random` token, the metadata map returned by the backend on
  read-back) is passed in as explicit parameters.
-/

namespace BlobService

/-- A Unicode string, as its list of code points. -/
abbrev Str := List Nat

/-- Code points of a Lean string literal, used to write concrete JS strings. -/
def strLit (s : String) : Str := s.data.map Char.toNat

/-- A Unicode scalar value: what a code point of a well-formed JS string is. -/
def ValidCodePoint (c : Nat) : Prop := c < 0x110000 ∧ ¬ (0xD800 ≤ c ∧ c ≤ 0xDFFF)

instance : DecidablePred ValidCodePoint := fun c => by
  unfold ValidCodePoint; infer_instance

/-- All code points of the string are Unicode scalar values. -/
def ValidStr (s : Str) : Prop := ∀ c ∈ s, ValidCodePoint c

instance : DecidablePred ValidStr := fun s => by
  unfold ValidStr; infer_instance

/-! ## UTF-8 encoding (`Buffer.from(string)`) -/

/-- UTF-8 bytes of one code point. -/
def utf8EncodeChar (c : Nat) : List Nat :=
  if c < 0x80 then [c]
  else if c < 0x800 then [0xC0 + c / 64, 0x80 + c % 64]
  else if c < 0x10000 then [0xE0 + c / 4096, 0x80 + (c / 64) % 64, 0x80 + c % 64]
  else [0xF0 + c / 262144, 0x80 + (c / 4096) % 64, 0x80 + (c / 64) % 64, 0x80 + c % 64]

/-- UTF-8 bytes of a string (`Buffer.from(s)`). -/
def utf8Encode (s : Str) : List Nat := s.flatMap utf8EncodeChar

/-! ## UTF-8 decoding (`buffer.toString('utf8')`), lenient

Node's UTF-8 decoder never throws: ill-formed sequences decode to U+FFFD. -/

/-- Is `b` a UTF-8 continuation byte `10xxxxxx`? -/
def isCont (b : Nat) : Bool := decide (0x80 ≤ b ∧ b < 0xC0)

/-- Extra constraint on the second byte of a three-byte sequence
(rejects overlong forms after lead `0xE0` and surrogates after lead `0xED`). -/
def utf8Valid3 (b b1 : Nat) : Bool := (b ≠ 0xE0 || 0xA0 ≤ b1) && (b ≠ 0xED || b1 < 0xA0)

/-- Extra constraint on the second byte of a four-byte sequence
(rejects overlong forms after lead `0xF0` and values above U+10FFFF after `0xF4`). -/
def utf8Valid4 (b b1 : Nat) : Bool := (b ≠ 0xF0 || 0x90 ≤ b1) && (b ≠ 0xF4 || b1 < 0x90)

/-- Decode one UTF-8 sequence: given the lead byte `b` and the bytes after it,
return the code point (U+FFFD if the sequence is ill-formed) and the number of
continuation bytes consumed beyond the lead byte. -/
def utf8DecodeOne (b : Nat) (rest : List Nat) : Nat × Nat :=
  if b < 0x80 then (b, 0)
  else if b < 0xC2 then (0xFFFD, 0)
  else if b < 0xE0 then
    match rest with
    | b1 :: _ =>
      if isCont b1 then ((b - 0xC0) * 64 + (b1 - 0x80), 1) else (0xFFFD, 0)
    | _ => (0xFFFD, 0)
  else if b < 0xF0 then
    match rest with
    | b1 :: b2 :: _ =>
      if isCont b1 && isCont b2 && utf8Valid3 b b1 then
        ((b - 0xE0) * 4096 + (b1 - 0x80) * 64 + (b2 - 0x80), 2)
      else (0xFFFD, 0)
    | _ => (0xFFFD, 0)
  else if b < 0xF5 then
    match rest with
    | b1 :: b2 :: b3 :: _ =>
      if isCont b1 && isCont b2 && isCont b3 && utf8Valid4 b b1 then
        ((b - 0xF0) * 262144 + (b1 - 0x80) * 4096 + (b2 - 0x80) * 64 + (b3 - 0x80), 3)
      else (0xFFFD, 0)
    | _ => (0xFFFD, 0)
  else (0xFFFD, 0)

/-- Fuel-driven driver for the lenient UTF-8 decoder; the fuel only bounds the
number of decoding steps and is irrelevant once at least the list length. -/
def utf8DecodeFuel : Nat → List Nat → List Nat
  | 0, _ => []
  | _, [] => []
  | fuel + 1, b :: rest =>
    (utf8DecodeOne b rest).1 :: utf8DecodeFuel fuel (rest.drop (utf8DecodeOne b rest).2)

/-- Lenient UTF-8 decoding of a byte list: well-formed sequences become their
code point, ill-formed bytes become U+FFFD; total, never fails. -/
def utf8DecodeLenient (bs : List Nat) : List Nat := utf8DecodeFuel bs.length bs

/-! ## Base64 (`buffer.toString('base64')` and `Buffer.from(token, 'base64')`) -/

/-- Code point of the base64 alphabet character for a 6-bit value. -/
def b64CharCode (k : Nat) : Nat :=
  if k < 26 then 65 + k
  else if k < 52 then 97 + (k - 26)
  else if k < 62 then 48 + (k - 52)
  else if k = 62 then 43
  else 47

/-- 6-bit value of a base64 alphabet character; `none` for everything else
(including the padding character `=`). -/
def decodeB64Code (c : Nat) : Option Nat :=
  if 65 ≤ c ∧ c ≤ 90 then some (c - 65)
  else if 97 ≤ c ∧ c ≤ 122 then some (c - 97 + 26)
  else if 48 ≤ c ∧ c ≤ 57 then some (c - 48 + 52)
  else if c = 43 then some 62
  else if c = 47 then some 63
  else none

/-- Base64 encoding of a byte list, with `=` padding. -/
def base64Encode : List Nat → Str
  | [] => []
  | [b1] => [b64CharCode (b1 / 4), b64CharCode (b1 % 4 * 16), 61, 61]
  | [b1, b2] =>
    [b64CharCode (b1 / 4), b64CharCode (b1 % 4 * 16 + b2 / 16), b64CharCode (b2 % 16 * 4), 61]
  | b1 :: b2 :: b3 :: bs =>
    b64CharCode (b1 / 4) :: b64CharCode (b1 % 4 * 16 + b2 / 16) ::
      b64CharCode (b2 % 16 * 4 + b3 / 64) :: b64CharCode (b3 % 64) :: base64Encode bs

/-- Reassemble bytes from a list of 6-bit values; a trailing group of two or
three sextets yields one or two bytes, a lone trailing sextet is dropped
(Node's base64 parser behaves this way). -/
def sextetsToBytes : List Nat → List Nat
  | s1 :: s2 :: s3 :: s4 :: rest =>
    (s1 * 4 + s2 / 16) :: (s2 % 16 * 16 + s3 / 4) :: (s3 % 4 * 64 + s4) :: sextetsToBytes rest
  | [s1, s2] => [s1 * 4 + s2 / 16]
  | [s1, s2, s3] => [s1 * 4 + s2 / 16, s2 % 16 * 16 + s3 / 4]
  | _ => []

/-- Lenient base64 decoding (`Buffer.from(token, 'base64')`): characters
outside the alphabet (and padding) are skipped, never an error. -/
def base64DecodeLenient (t : Str) : List Nat :=
  sextetsToBytes (t.filterMap decodeB64Code)

/-! ## The filename codec of `blobService.ts`

`encodeStr` models line 76, `Buffer.from(filePath).toString('base64')`;
`decodeStr` models lines 115/141/162, `Buffer.from(tok, 'base64').toString()`. -/

/-- `encode`: base64 of the UTF-8 bytes of the declared filename. -/
def encodeStr (s : Str) : Str := base64Encode (utf8Encode s)

/-- `decode`: lenient base64 to bytes, then lenient UTF-8 to a string.
Total — the JS original (`Buffer.from` + `toString`) never throws. -/
def decodeStr (t : Str) : Str := utf8DecodeLenient (base64DecodeLenient t)

/-! ## Storage key derivation (`uploadFileToBlob`, lines 57-67)

```
const hasNonAsciiChars = /[^\x00-\x7F]/.test(filePath);
let safeBlobName = filePath;
if (hasNonAsciiChars) {
  const extension = filePath.includes('.') ? filePath.substring(filePath.lastIndexOf('.')) : '';
  safeBlobName = `file-${timestamp}-${randomId}${extension}`;
}
```
The clock reading `${timestamp}` and the `Math.random` token `${randomId}`
are run-time nondeterminism and enter as parameters (already interpolated). -/

/-- Does the declared filename contain a character outside `\x00-\x7F`? -/
def hasNonAsciiChars (s : Str) : Bool := s.any (fun c => decide (0x7F < c))

/-- `filePath.includes('.') ? filePath.substring(filePath.lastIndexOf('.')) : ''`:
the suffix of the filename from (and including) its last dot, else empty. -/
def extensionOf (s : Str) : Str :=
  if 46 ∈ s then 46 :: (s.reverse.takeWhile (fun c => c ≠ 46)).reverse else []

/-- The storage key the upload handler derives from the declared filename. -/
def safeBlobName (filePath timestamp randomId : Str) : Str :=
  if hasNonAsciiChars filePath then
    strLit "file-" ++ timestamp ++ strLit "-" ++ randomId ++ extensionOf filePath
  else filePath

example : safeBlobName (strLit "report.pdf") (strLit "17") (strLit "zq") =
    strLit "report.pdf" := by decide
example : safeBlobName (strLit "ทดสอบ.txt") (strLit "17") (strLit "zq") =
    strLit "file-17-zq.txt" := by decide
example : extensionOf (strLit ".bashrc") = strLit ".bashrc" := by decide
example : extensionOf (strLit "archive.tar.gz") = strLit ".gz" := by decide
example : extensionOf (strLit "README") = [] := by decide

/-! ## Upload metadata and result (`uploadFileToBlob`, lines 76-117) -/

/-- `encodeURIComponent(filePath)` (metadata field `originalNameUtf8`, line 77):
characters unreserved for `encodeURIComponent` pass through, all others are
percent-encoded byte-wise over UTF-8 with uppercase hex. -/
def isUriUnreserved (c : Nat) : Bool :=
  decide ((65 ≤ c ∧ c ≤ 90) ∨ (97 ≤ c ∧ c ≤ 122) ∨ (48 ≤ c ∧ c ≤ 57)) ||
    decide (c = 45 ∨ c = 46 ∨ c = 95 ∨ c = 126 ∨ c = 33 ∨ c = 42 ∨ c = 39 ∨ c = 40 ∨ c = 41)

/-- Uppercase hexadecimal digit for a 4-bit value. -/
def hexDigit (n : Nat) : Nat := if n < 10 then 48 + n else 55 + n

/-- Model of `encodeURIComponent`. -/
def encodeURIComponentStr (s : Str) : Str :=
  s.flatMap (fun c =>
    if isUriUnreserved c then [c]
    else (utf8EncodeChar c).flatMap (fun b => [37, hexDigit (b / 16), hexDigit (b % 16)]))

/-- The metadata map written by the upload handler (lines 90-94). The write
path stores the encoded filename under the key `originalFilename`.
`nowIso` is the run-time `new Date().toISOString()` string. -/
def uploadMetadata (filePath nowIso : Str) : List (String × Str) :=
  [("originalFilename", encodeStr filePath),
   ("originalNameUtf8", encodeURIComponentStr filePath),
   ("dateUploaded", nowIso)]

/-- Case-sensitive lookup in a metadata map (JS property access on a metadata
object whose keys are preserved exactly as written). -/
def metaLookup (k : String) (m : List (String × Str)) : Option Str :=
  (m.find? (fun p => p.1 = k)).map (fun p => p.2)

/-- The value `uploadFileToBlob` resolves with (lines 112-117). -/
structure UploadResult where
  originalName : Str
  decodedName : Str
  blobName : Str
  deriving DecidableEq

/-- Model of `uploadFileToBlob` (lines 53-123). `readBackMetadata` is the
metadata map the backend returns from the post-write `getProperties()` call
(line 108); the source only logs it, so the result cannot depend on it.
`decodedName` decodes the in-memory `originalFilenameEncoded` (line 115). -/
def uploadFileToBlob (filePath timestamp randomId : Str)
    (_readBackMetadata : Option (List (String × Str))) : UploadResult :=
  { originalName := filePath
    decodedName := decodeStr (encodeStr filePath)
    blobName := safeBlobName filePath timestamp randomId }

/-! ## Listing (`listBlobs`, lines 150-177, and `getOriginalFileName`) -/

/-- A stored object, as the listing path sees it: its key and the metadata map
returned by `getProperties()` (`none` when the backend reports no metadata). -/
structure StoredBlob where
  name : Str
  metadata : Option (List (String × Str))
  deriving DecidableEq

/-- A listing entry (fields of line 168-173 that carry filename recovery). -/
structure ListedBlob where
  name : Str
  originalName : Option Str
  decodedName : Option Str
  deriving DecidableEq

/-- Per-object step of `listBlobs` (lines 156-173): the read path looks up the
metadata key `originalfilename` (all lower-case, lines 159-162); JS truthiness
makes an empty-string value count as absent; the `try/catch` around the decode
is dead code because `Buffer.from(_, 'base64').toString()` never throws. -/
def listEntry (b : StoredBlob) : ListedBlob :=
  match b.metadata with
  | none => { name := b.name, originalName := none, decodedName := none }
  | some m =>
    match metaLookup "originalfilename" m with
    | none => { name := b.name, originalName := none, decodedName := none }
    | some v =>
      if v = [] then { name := b.name, originalName := none, decodedName := none }
      else { name := b.name, originalName := some v, decodedName := some (decodeStr v) }

/-- Model of `listBlobs`: one entry per stored object, in enumeration order. -/
def listBlobs (store : List StoredBlob) : List ListedBlob := store.map listEntry

/-! ## Frontend display (`file_list.tsx`, line 88)

`{file.originalName || file.decodedName || file.name}` with JS truthiness. -/

/-- `a || b` on a nullable JS string: `null`/`undefined` and `""` fall through. -/
def jsOr (a : Option Str) (b : Str) : Str :=
  match a with
  | none => b
  | some v => if v = [] then b else v

/-- The name `file_list.tsx` displays for a listing entry. -/
def displayName (e : ListedBlob) : Str := jsOr e.originalName (jsOr e.decodedName e.name)

/-! ## Spec-side characterizations and auxiliary structure -/

/-- Spec-side statement of the extension rule (spec 4.2): `e` is the substring
of `s` from (and including) its last `.` when `s` contains one, else empty. -/
def SpecExtension (s e : Str) : Prop :=
  if 46 ∈ s then ∃ pre t, s = pre ++ e ∧ e = 46 :: t ∧ 46 ∉ t
  else e = []

/-- The declared safe alphabet of the encoder: the 64 base64 characters plus
the padding character. -/
def b64SafeAlphabet : Str :=
  strLit "ABCDEFGHIJKLMNOPQRSTUVWXYZabcdefghijklmnopqrstuvwxyz0123456789+/="

/-- Shape every output of `encodeStr` has: length a multiple of four and only
characters of the declared safe alphabet. -/
def isB64Shape (t : Str) : Bool :=
  decide (t.length % 4 = 0) && t.all (fun c => decide (c ∈ b64SafeAlphabet))

/-! ## Configuration surface (`blobService.ts`, lines 7-16) and operation errors

```
const connectionString = process.env.AZURE_STORAGE_CONNECTION_STRING || '';
if (!connectionString) {
  console.error('Azure Storage connection string is not set ...');
}
const blobServiceClient = BlobServiceClient.fromConnectionString(connectionString);
```
A missing credential only produces a `console.error`; the module then hands
the empty string to the external SDK constructor unguarded, and no operation
ever inspects the configuration again. -/

/-- The connection string the module computes at load (line 7). -/
def connectionStringOf (env : Option String) : String := env.getD ""

/-- Lines 10-12: whether the module logs the missing-credential message; the
log is the only reaction, nothing is aborted and no error value is created. -/
def logsMissingCredential (env : Option String) : Bool := connectionStringOf env = ""

/-- Errors an operation can surface. The source defines no configuration
error kind anywhere; its `catch` blocks rethrow the backend error unchanged
(lines 118-122), which `backend` models. `configurationMissing` exists only to
state the spec's requirement. -/
inductive OpError where
  | configurationMissing
  | backend (message : String)
  deriving DecidableEq

/-- Model of a full `uploadFileToBlob` call including its `try/catch` (lines
53-123): the catch logs and rethrows the backend's own error unchanged, and no
code path inspects `env` (the connection-string configuration). -/
def uploadFileToBlobOp (env : Option String) (filePath timestamp randomId : Str)
    (backendOutcome : Except String Unit)
    (readBack : Option (List (String × Str))) : Except OpError UploadResult :=
  match env, backendOutcome with
  | _, .error e => .error (OpError.backend e)
  | _, .ok _ => .ok (uploadFileToBlob filePath timestamp randomId readBack)

/-! ## Roundtrip: base64 -/

/-- Decoding a base64 alphabet character recovers its 6-bit value. -/
theorem decodeB64Code_b64CharCode (k : Nat) (h : k < 64) :
    decodeB64Code (b64CharCode k) = some k := by
  interval_cases k <;> rfl

/-- The padding character `=` is skipped by the base64 parser. -/
theorem decodeB64Code_pad : decodeB64Code 61 = none := rfl

/-- Lenient base64 decoding inverts base64 encoding on byte lists. -/
theorem b64_roundtrip : ∀ bs : List Nat, (∀ b ∈ bs, b < 256) →
    base64DecodeLenient (base64Encode bs) = bs
  | [], _ => rfl
  | [b1], h => by
    have hb1 : b1 < 256 := h b1 (by simp)
    have h1 : b1 / 4 < 64 := by omega
    have h2 : b1 % 4 * 16 < 64 := by omega
    simp [base64Encode, base64DecodeLenient, List.filterMap_cons,
      decodeB64Code_b64CharCode _ h1, decodeB64Code_b64CharCode _ h2, decodeB64Code_pad,
      sextetsToBytes]
    omega
  | [b1, b2], h => by
    have hb1 : b1 < 256 := h b1 (by simp)
    have hb2 : b2 < 256 := h b2 (by simp)
    have h1 : b1 / 4 < 64 := by omega
    have h2 : b1 % 4 * 16 + b2 / 16 < 64 := by omega
    have h3 : b2 % 16 * 4 < 64 := by omega
    simp [base64Encode, base64DecodeLenient, List.filterMap_cons,
      decodeB64Code_b64CharCode _ h1, decodeB64Code_b64CharCode _ h2,
      decodeB64Code_b64CharCode _ h3, decodeB64Code_pad, sextetsToBytes]
    omega
  | b1 :: b2 :: b3 :: bs, h => by
    have hb1 : b1 < 256 := h b1 (by simp)
    have hb2 : b2 < 256 := h b2 (by simp)
    have hb3 : b3 < 256 := h b3 (by simp)
    have h1 : b1 / 4 < 64 := by omega
    have h2 : b1 % 4 * 16 + b2 / 16 < 64 := by omega
    have h3 : b2 % 16 * 4 + b3 / 64 < 64 := by omega
    have h4 : b3 % 64 < 64 := by omega
    have ih := b64_roundtrip bs (fun b hb => h b (by simp [hb]))
    simp only [base64DecodeLenient] at ih
    simp [base64Encode, base64DecodeLenient, List.filterMap_cons,
      decodeB64Code_b64CharCode _ h1, decodeB64Code_b64CharCode _ h2,
      decodeB64Code_b64CharCode _ h3, decodeB64Code_b64CharCode _ h4,
      sextetsToBytes, ih]
    omega

/-! ## Roundtrip: UTF-8 -/

/-- UTF-8 encoding of a Unicode scalar value yields bytes below 256. -/
theorem utf8EncodeChar_bytes_lt (c : Nat) (hc : c < 0x110000) :
    ∀ b ∈ utf8EncodeChar c, b < 256 := by
  intro b hb
  unfold utf8EncodeChar at hb
  split_ifs at hb <;> simp at hb <;> omega

/-- UTF-8 encoding of a well-formed string yields bytes below 256. -/
theorem utf8Encode_bytes_lt (s : Str) (h : ValidStr s) : ∀ b ∈ utf8Encode s, b < 256 := by
  intro b hb
  unfold utf8Encode at hb
  rw [List.mem_flatMap] at hb
  obtain ⟨c, hcs, hbc⟩ := hb
  exact utf8EncodeChar_bytes_lt c (h c hcs).1 b hbc

/-- The fuel of the UTF-8 driver is irrelevant once it covers the list length. -/
theorem utf8DecodeFuel_congr : ∀ (fuel fuel' : Nat) (bs : List Nat),
    bs.length ≤ fuel → bs.length ≤ fuel' →
    utf8DecodeFuel fuel bs = utf8DecodeFuel fuel' bs
  | fuel, fuel', [], _, _ => by cases fuel <;> cases fuel' <;> rfl
  | 0, _, b :: rest, h, _ => by simp at h
  | _ + 1, 0, b :: rest, _, h' => by simp at h'
  | fuel + 1, fuel' + 1, b :: rest, h, h' => by
    simp only [List.length_cons] at h h'
    simp only [utf8DecodeFuel]
    congr 1
    apply utf8DecodeFuel_congr
    · simp only [List.length_drop]; omega
    · simp only [List.length_drop]; omega

/-- Unfolding of the lenient UTF-8 decoder on a nonempty byte list. -/
theorem utf8Dec_cons (b : Nat) (rest : List Nat) :
    utf8DecodeLenient (b :: rest) =
      (utf8DecodeOne b rest).1 ::
        utf8DecodeLenient (rest.drop (utf8DecodeOne b rest).2) := by
  unfold utf8DecodeLenient
  simp only [List.length_cons, utf8DecodeFuel]
  congr 1
  apply utf8DecodeFuel_congr <;> simp only [List.length_drop] <;> omega

/-- One-byte sequence. -/
theorem utf8DecodeOne_1 (b : Nat) (rest : List Nat) (h : b < 0x80) :
    utf8DecodeOne b rest = (b, 0) := by
  unfold utf8DecodeOne
  rw [if_pos h]

/-- Two-byte sequence. -/
theorem utf8DecodeOne_2 (b b1 : Nat) (rest : List Nat) (hl : 0xC2 ≤ b) (hh : b < 0xE0)
    (hc : isCont b1 = true) :
    utf8DecodeOne b (b1 :: rest) = ((b - 0xC0) * 64 + (b1 - 0x80), 1) := by
  unfold utf8DecodeOne
  rw [if_neg (by omega), if_neg (by omega), if_pos hh]
  dsimp only
  rw [if_pos hc]

/-- Three-byte sequence. -/
theorem utf8DecodeOne_3 (b b1 b2 : Nat) (rest : List Nat) (hl : 0xE0 ≤ b) (hh : b < 0xF0)
    (hc1 : isCont b1 = true) (hc2 : isCont b2 = true) (hv : utf8Valid3 b b1 = true) :
    utf8DecodeOne b (b1 :: b2 :: rest) =
      ((b - 0xE0) * 4096 + (b1 - 0x80) * 64 + (b2 - 0x80), 2) := by
  unfold utf8DecodeOne
  rw [if_neg (by omega), if_neg (by omega), if_neg (by omega), if_pos hh]
  dsimp only
  rw [if_pos (by rw [hc1, hc2, hv]; rfl)]

/-- Four-byte sequence. -/
theorem utf8DecodeOne_4 (b b1 b2 b3 : Nat) (rest : List Nat) (hl : 0xF0 ≤ b) (hh : b < 0xF5)
    (hc1 : isCont b1 = true) (hc2 : isCont b2 = true) (hc3 : isCont b3 = true)
    (hv : utf8Valid4 b b1 = true) :
    utf8DecodeOne b (b1 :: b2 :: b3 :: rest) =
      ((b - 0xF0) * 262144 + (b1 - 0x80) * 4096 + (b2 - 0x80) * 64 + (b3 - 0x80), 3) := by
  unfold utf8DecodeOne
  rw [if_neg (by omega), if_neg (by omega), if_neg (by omega), if_neg (by omega), if_pos hh]
  dsimp only
  rw [if_pos (by rw [hc1, hc2, hc3, hv]; rfl)]

/-- One-byte step of the lenient UTF-8 decoder. -/
theorem utf8Dec_step1 (b : Nat) (h : b < 0x80) (rest : List Nat) :
    utf8DecodeLenient (b :: rest) = b :: utf8DecodeLenient rest := by
  rw [utf8Dec_cons, utf8DecodeOne_1 b rest h]
  rfl

/-- Two-byte step of the lenient UTF-8 decoder. -/
theorem utf8Dec_step2 (b b1 : Nat) (hl : 0xC2 ≤ b) (hh : b < 0xE0)
    (hc : isCont b1 = true) (rest : List Nat) :
    utf8DecodeLenient (b :: b1 :: rest) =
      ((b - 0xC0) * 64 + (b1 - 0x80)) :: utf8DecodeLenient rest := by
  rw [utf8Dec_cons, utf8DecodeOne_2 b b1 rest hl hh hc]
  rfl

/-- Three-byte step of the lenient UTF-8 decoder. -/
theorem utf8Dec_step3 (b b1 b2 : Nat) (hl : 0xE0 ≤ b) (hh : b < 0xF0)
    (hc1 : isCont b1 = true) (hc2 : isCont b2 = true) (hv : utf8Valid3 b b1 = true)
    (rest : List Nat) :
    utf8DecodeLenient (b :: b1 :: b2 :: rest) =
      ((b - 0xE0) * 4096 + (b1 - 0x80) * 64 + (b2 - 0x80)) :: utf8DecodeLenient rest := by
  rw [utf8Dec_cons, utf8DecodeOne_3 b b1 b2 rest hl hh hc1 hc2 hv]
  rfl

/-- Four-byte step of the lenient UTF-8 decoder. -/
theorem utf8Dec_step4 (b b1 b2 b3 : Nat) (hl : 0xF0 ≤ b) (hh : b < 0xF5)
    (hc1 : isCont b1 = true) (hc2 : isCont b2 = true) (hc3 : isCont b3 = true)
    (hv : utf8Valid4 b b1 = true) (rest : List Nat) :
    utf8DecodeLenient (b :: b1 :: b2 :: b3 :: rest) =
      ((b - 0xF0) * 262144 + (b1 - 0x80) * 4096 + (b2 - 0x80) * 64 + (b3 - 0x80)) ::
        utf8DecodeLenient rest := by
  rw [utf8Dec_cons, utf8DecodeOne_4 b b1 b2 b3 rest hl hh hc1 hc2 hc3 hv]
  rfl

/-- Lenient UTF-8 decoding consumes the encoding of one scalar value exactly. -/
theorem utf8DecodeLenient_encodeChar_append (c : Nat) (h : ValidCodePoint c)
    (rest : List Nat) :
    utf8DecodeLenient (utf8EncodeChar c ++ rest) = c :: utf8DecodeLenient rest := by
  obtain ⟨hlt, hsur⟩ := h
  by_cases h1 : c < 0x80
  · have henc : utf8EncodeChar c = [c] := by rw [utf8EncodeChar, if_pos h1]
    rw [henc, List.cons_append, List.nil_append, utf8Dec_step1 c h1]
  · by_cases h2 : c < 0x800
    · have henc : utf8EncodeChar c = [0xC0 + c / 64, 0x80 + c % 64] := by
        rw [utf8EncodeChar, if_neg h1, if_pos h2]
      rw [henc]
      have hstep := utf8Dec_step2 (0xC0 + c / 64) (0x80 + c % 64) (by omega) (by omega)
        (by simp [isCont]; omega) rest
      simp only [List.cons_append, List.nil_append] at hstep ⊢
      rw [hstep]
      have ev : (0xC0 + c / 64 - 0xC0) * 64 + (0x80 + c % 64 - 0x80) = c := by omega
      rw [ev]
    · by_cases h3 : c < 0x10000
      · have henc : utf8EncodeChar c = [0xE0 + c / 4096, 0x80 + c / 64 % 64, 0x80 + c % 64] := by
          rw [utf8EncodeChar, if_neg h1, if_neg h2, if_pos h3]
        rw [henc]
        have hstep := utf8Dec_step3 (0xE0 + c / 4096) (0x80 + c / 64 % 64) (0x80 + c % 64)
          (by omega) (by omega) (by simp [isCont]; omega) (by simp [isCont]; omega)
          (by simp [utf8Valid3]; omega) rest
        simp only [List.cons_append, List.nil_append] at hstep ⊢
        rw [hstep]
        have ev : (0xE0 + c / 4096 - 0xE0) * 4096 + (0x80 + c / 64 % 64 - 0x80) * 64 +
            (0x80 + c % 64 - 0x80) = c := by omega
        rw [ev]
      · have henc : utf8EncodeChar c =
            [0xF0 + c / 262144, 0x80 + c / 4096 % 64, 0x80 + c / 64 % 64, 0x80 + c % 64] := by
          rw [utf8EncodeChar, if_neg h1, if_neg h2, if_neg h3]
        rw [henc]
        have hstep := utf8Dec_step4 (0xF0 + c / 262144) (0x80 + c / 4096 % 64)
          (0x80 + c / 64 % 64) (0x80 + c % 64)
          (by omega) (by omega) (by simp [isCont]; omega) (by simp [isCont]; omega)
          (by simp [isCont]; omega) (by simp [utf8Valid4]; omega) rest
        simp only [List.cons_append, List.nil_append] at hstep ⊢
        rw [hstep]
        have ev : (0xF0 + c / 262144 - 0xF0) * 262144 + (0x80 + c / 4096 % 64 - 0x80) * 4096 +
            (0x80 + c / 64 % 64 - 0x80) * 64 + (0x80 + c % 64 - 0x80) = c := by omega
        rw [ev]

/-- Lenient UTF-8 decoding inverts UTF-8 encoding on well-formed strings. -/
theorem utf8_roundtrip (s : Str) (h : ValidStr s) : utf8DecodeLenient (utf8Encode s) = s := by
  induction s with
  | nil => rfl
  | cons c cs ih =>
    have hc : ValidCodePoint c := h c (by simp)
    have hcs : ValidStr cs := fun x hx => h x (by simp [hx])
    have : utf8Encode (c :: cs) = utf8EncodeChar c ++ utf8Encode cs := by
      simp [utf8Encode]
    rw [this, utf8DecodeLenient_encodeChar_append c hc, ih hcs]

/-- The codec roundtrip of `blobService.ts`: decoding the base64 encoding of a
well-formed filename recovers the filename. -/
theorem decodeStr_encodeStr (s : Str) (h : ValidStr s) : decodeStr (encodeStr s) = s := by
  unfold decodeStr encodeStr
  rw [b64_roundtrip _ (utf8Encode_bytes_lt s h), utf8_roundtrip s h]

/-! ## The extension rule -/

/-- If a list contains a dot, dropping its dot-free suffix-reversal leaves a
list headed by a dot. -/
theorem dropWhile_dot_cons (l : List Nat) (h : 46 ∈ l) :
    ∃ t, l.dropWhile (fun c => c ≠ 46) = 46 :: t := by
  induction l with
  | nil => simp at h
  | cons a as ih =>
    by_cases ha : a = 46
    · subst ha
      exact ⟨as, by simp [List.dropWhile_cons]⟩
    · have h' : 46 ∈ as := by
        rcases List.mem_cons.mp h with hh | hh
        · exact absurd hh.symm ha
        · exact hh
      obtain ⟨t, ht⟩ := ih h'
      refine ⟨t, ?_⟩
      rw [List.dropWhile_cons, if_pos (by simp [ha])]
      exact ht

/-- The extension computed by the upload handler satisfies the spec's
last-dot rule. -/
theorem specExtension_extensionOf (s : Str) : SpecExtension s (extensionOf s) := by
  unfold SpecExtension extensionOf
  by_cases hdot : 46 ∈ s
  · rw [if_pos hdot, if_pos hdot]
    obtain ⟨t, ht⟩ := dropWhile_dot_cons s.reverse (by simpa using hdot)
    refine ⟨t.reverse, (s.reverse.takeWhile (fun c => c ≠ 46)).reverse, ?_, rfl, ?_⟩
    · conv_lhs => rw [← s.reverse_reverse,
        ← List.takeWhile_append_dropWhile (p := fun c => c ≠ 46) (l := s.reverse)]
      rw [ht, List.reverse_append, List.reverse_cons]
      simp
    · intro hmem
      rw [List.mem_reverse] at hmem
      have := List.mem_takeWhile_imp hmem
      simp at this
  · rw [if_neg hdot, if_neg hdot]

/-! ## The safe alphabet -/

/-- Every character the base64 encoder emits for a 6-bit slot lies in the
declared safe alphabet. -/
theorem b64CharCode_mem (k : Nat) : b64CharCode k ∈ b64SafeAlphabet := by
  unfold b64CharCode
  split_ifs with h1 h2 h3 h4
  · interval_cases k <;> decide
  · have h : 26 ≤ k := by omega
    interval_cases k <;> decide
  · have h : 52 ≤ k := by omega
    interval_cases k <;> decide
  · subst h4; decide
  · decide

/-- The padding character lies in the declared safe alphabet. -/
theorem pad_mem : (61 : Nat) ∈ b64SafeAlphabet := by decide

/-- Every character of a base64 encoding lies in the declared safe alphabet. -/
theorem base64Encode_mem : ∀ (bs : List Nat), ∀ c ∈ base64Encode bs, c ∈ b64SafeAlphabet
  | [], c, hc => by simp [base64Encode] at hc
  | [b1], c, hc => by
    simp only [base64Encode, List.mem_cons, List.not_mem_nil, or_false] at hc
    rcases hc with rfl | rfl | rfl | rfl
    · exact b64CharCode_mem _
    · exact b64CharCode_mem _
    · exact pad_mem
    · exact pad_mem
  | [b1, b2], c, hc => by
    simp only [base64Encode, List.mem_cons, List.not_mem_nil, or_false] at hc
    rcases hc with rfl | rfl | rfl | rfl
    · exact b64CharCode_mem _
    · exact b64CharCode_mem _
    · exact b64CharCode_mem _
    · exact pad_mem
  | b1 :: b2 :: b3 :: bs, c, hc => by
    simp only [base64Encode, List.mem_cons] at hc
    rcases hc with rfl | rfl | rfl | rfl | hc
    · exact b64CharCode_mem _
    · exact b64CharCode_mem _
    · exact b64CharCode_mem _
    · exact b64CharCode_mem _
    · exact base64Encode_mem bs c hc

/-- The length of a base64 encoding is a multiple of four. -/
theorem base64Encode_length : ∀ bs : List Nat, (base64Encode bs).length % 4 = 0
  | [] => rfl
  | [_] => by simp [base64Encode]
  | [_, _] => by simp [base64Encode]
  | _ :: _ :: _ :: bs => by
    have ih := base64Encode_length bs
    simp only [base64Encode, List.length_cons]
    omega

/-- Every output of the encoder has the declared base64 shape. -/
theorem encodeStr_isB64Shape (s : Str) : isB64Shape (encodeStr s) = true := by
  unfold isB64Shape
  rw [Bool.and_eq_true, decide_eq_true_eq, List.all_eq_true]
  refine ⟨base64Encode_length _, fun c hc => ?_⟩
  rw [decide_eq_true_eq]
  exact base64Encode_mem _ c hc

/-! ## Leniency of the base64 parser -/

/-- The base64 parser reads exactly the alphabet characters: removing the
skipped characters first changes nothing. -/
theorem filterMap_decodeB64_filter (t : Str) :
    t.filterMap decodeB64Code =
      (t.filter (fun c => (decodeB64Code c).isSome)).filterMap decodeB64Code := by
  induction t with
  | nil => rfl
  | cons c cs ih =>
    cases hc : decodeB64Code c with
    | none =>
      simp [List.filterMap_cons, List.filter_cons, hc, ih]
    | some v =>
      simp [List.filterMap_cons, List.filter_cons, hc, ih]

/-! ## Null recovery on the listing path -/

/-- A stored object with absent metadata or without the (lower-cased) expected
key, or with an empty value under it, yields an all-null listing entry. -/
theorem listEntry_null (b : StoredBlob)
    (h : b.metadata = none ∨
      ∃ m, b.metadata = some m ∧
        (metaLookup "originalfilename" m = none ∨
          metaLookup "originalfilename" m = some [])) :
    listEntry b = { name := b.name, originalName := none, decodedName := none } := by
  rcases h with h | ⟨m, hm, h⟩
  · unfold listEntry
    rw [h]
  · rcases h with h | h
    · unfold listEntry
      rw [hm]
      dsimp only
      rw [h]
    · unfold listEntry
      rw [hm]
      dsimp only
      rw [h]
      simp

/-! ## The claims -/

/-- C1: for every Unicode string x (the code points of a well-formed JS
string), decoding the encoding of x yields x: the write-path transform
`Buffer.from(x).toString('base64')` (`encodeStr`) followed by the read-path
transform `Buffer.from(tok, 'base64').toString()` (`decodeStr`) is the
identity on x; `encodeStr` is total, so encode never fails on valid input. -/
theorem C1_decode_encode_id (x : Str) (hx : ValidStr x) :
    decodeStr (encodeStr x) = x :=
  decodeStr_encodeStr x hx

/-- Witness for C1 at the spec's own Thai example filename. -/
theorem C1_decode_encode_id_witness :
    ValidStr (strLit "ทดสอบภาษาไทย.txt") ∧
      decodeStr (encodeStr (strLit "ทดสอบภาษาไทย.txt")) = strLit "ทดสอบภาษาไทย.txt" :=
  ⟨by decide, C1_decode_encode_id (strLit "ทดสอบภาษาไทย.txt") (by decide)⟩

/-- C2: the derived storage key equals the declared filename unmodified when
the filename consists entirely of directly-accepted (ASCII) characters;
otherwise it has the form `file` + `-` + timestamp + `-` + random-token +
extension, where the extension obeys the spec's last-dot rule
(`SpecExtension`): the suffix from (and including) the last `.` when a dot
exists, else empty — covering extension-less names and hidden-file names
whose only dot is the first character. -/
theorem C2_storage_key_shape (filePath timestamp randomId : Str) :
    ∃ e, SpecExtension filePath e ∧
      safeBlobName filePath timestamp randomId =
        (if hasNonAsciiChars filePath then
          strLit "file" ++ strLit "-" ++ timestamp ++ strLit "-" ++ randomId ++ e
        else filePath) := by
  refine ⟨extensionOf filePath, specExtension_extensionOf filePath, ?_⟩
  unfold safeBlobName
  by_cases h : hasNonAsciiChars filePath = true
  · rw [if_pos h, if_pos h]
    have hf : strLit "file-" = strLit "file" ++ strLit "-" := by decide
    rw [hf]
  · rw [if_neg h, if_neg h]

/-- C3 (code bug): the write path stores the encoded filename under the
metadata key `originalFilename` (`uploadMetadata`), but the listing path reads
`originalfilename` (`listEntry`); over a metadata map that preserves key
casing exactly as written, every object written by the upload handler lists
with null recovery instead of its declared filename. -/
theorem C3_metadata_key_case_mismatch (filePath nowIso name : Str) :
    listEntry { name := name, metadata := some (uploadMetadata filePath nowIso) } =
      { name := name, originalName := none, decodedName := none } := by
  apply listEntry_null
  right
  exact ⟨uploadMetadata filePath nowIso, rfl, Or.inl rfl⟩

/-- C4 counterexample: a stored object whose metadata value under the expected
key is not a valid encoding (`"!!!"`) does not get a null recovered filename:
the lenient decode cannot fail and returns the empty string, so its
`decodedName` is `some []` where the claim demands null. Both entries are
still returned (the listing is indeed not aborted). -/
theorem C4_counterexample :
    listBlobs
      [{ name := strLit "a.txt",
         metadata := some [("originalfilename", encodeStr (strLit "a.txt"))] },
       { name := strLit "file-1-x.bin",
         metadata := some [("originalfilename", strLit "!!!")] }] =
      [{ name := strLit "a.txt",
         originalName := some (encodeStr (strLit "a.txt")),
         decodedName := some (strLit "a.txt") },
       { name := strLit "file-1-x.bin",
         originalName := some (strLit "!!!"),
         decodedName := some [] }] := by decide

/-- C4 (amended): the listing is best-effort per entry — whatever the
surrounding stored objects, an object with absent metadata or a missing (or
empty, by JS truthiness) expected key yields an entry with null recovered
filename, while every other object contributes its own entry unchanged; one
bad entry never aborts or perturbs the rest of the listing. A present but
corrupted value instead decodes leniently to a non-null string (see the
counterexample), also without aborting. -/
theorem C4_best_effort (xs ys : List StoredBlob) (bad : StoredBlob)
    (h : bad.metadata = none ∨
      ∃ m, bad.metadata = some m ∧
        (metaLookup "originalfilename" m = none ∨
          metaLookup "originalfilename" m = some [])) :
    listBlobs (xs ++ bad :: ys) =
      listBlobs xs ++
        { name := bad.name, originalName := none, decodedName := none } :: listBlobs ys := by
  unfold listBlobs
  rw [List.map_append, List.map_cons, listEntry_null bad h]

/-- Witness for C4 at a two-object store whose second object lacks metadata. -/
theorem C4_best_effort_witness :
    listBlobs
        ([{ name := strLit "a.txt",
            metadata := some [("originalfilename", encodeStr (strLit "a.txt"))] }] ++
          { name := strLit "b.bin", metadata := (none : Option (List (String × Str))) } :: []) =
      listBlobs
          [{ name := strLit "a.txt",
             metadata := some [("originalfilename", encodeStr (strLit "a.txt"))] }] ++
        { name := strLit "b.bin", originalName := none, decodedName := none } :: listBlobs [] :=
  C4_best_effort
    [{ name := strLit "a.txt",
       metadata := some [("originalfilename", encodeStr (strLit "a.txt"))] }] []
    { name := strLit "b.bin", metadata := none } (Or.inl rfl)

/-- C5 counterexample: with a backend whose post-write read-back returns an
empty metadata map, the upload result still recovers `a.txt` — so the
recovered filename was not obtained by decoding the read-back metadata (which
holds nothing to decode); the source decodes the in-memory encoded value
(line 115) and only logs the read-back. -/
theorem C5_counterexample :
    (uploadFileToBlob (strLit "a.txt") (strLit "0") (strLit "x") (some [])).decodedName =
      strLit "a.txt" ∧
    metaLookup "originalFilename" [] = none :=
  ⟨by decide, rfl⟩

/-- C5 (amended): the upload result's recovered filename is
`decode(encode(declared))`, computed from the in-memory encoded value; it is
independent of the metadata the backend returns from the post-write
`getProperties()` read-back, which is only logged. -/
theorem C5_decoded_from_memory (filePath timestamp randomId : Str)
    (rb rb' : Option (List (String × Str))) (hv : ValidStr filePath) :
    uploadFileToBlob filePath timestamp randomId rb =
      uploadFileToBlob filePath timestamp randomId rb' ∧
    (uploadFileToBlob filePath timestamp randomId rb).decodedName = filePath :=
  ⟨rfl, decodeStr_encodeStr filePath hv⟩

/-- Witness for C5 at a Thai filename and differing read-backs. -/
theorem C5_decoded_from_memory_witness :
    uploadFileToBlob (strLit "ท.txt") (strLit "1") (strLit "z") (some []) =
        uploadFileToBlob (strLit "ท.txt") (strLit "1") (strLit "z") none ∧
      (uploadFileToBlob (strLit "ท.txt") (strLit "1") (strLit "z") (some [])).decodedName =
        strLit "ท.txt" :=
  C5_decoded_from_memory (strLit "ท.txt") (strLit "1") (strLit "z") (some []) none (by decide)

/-- C6 counterexample: `"!!!"` is not a valid output of encode — every encode
output has the base64 shape (`encodeStr_isB64Shape`), which `"!!!"` lacks —
yet decode does not fail with a `DecodeError` on it: it succeeds and returns
the empty string. In the source, `Buffer.from(t, 'base64')` and `toString()`
never throw. -/
theorem C6_counterexample :
    isB64Shape (strLit "!!!") = false ∧ decodeStr (strLit "!!!") = [] := by decide

/-- C6 (amended): decode is total and lenient rather than failing — characters
outside the base64 alphabet are skipped (filtering them away first changes
nothing), a decoded byte sequence that is not valid UTF-8 becomes U+FFFD
(witnessed on `"/w=="`, the encoding of the lone byte 0xFF), and decode
succeeds with exactly x on every valid output `encode(x)`. -/
theorem C6_decode_total_lenient (t : Str) (x : Str) (hx : ValidStr x) :
    decodeStr t = decodeStr (t.filter (fun c => (decodeB64Code c).isSome)) ∧
    decodeStr (strLit "/w==") = [0xFFFD] ∧
    decodeStr (encodeStr x) = x := by
  refine ⟨?_, by decide, decodeStr_encodeStr x hx⟩
  unfold decodeStr base64DecodeLenient
  rw [filterMap_decodeB64_filter t]

/-- Witness for C6 at a token with a stray character and a one-letter name. -/
theorem C6_decode_total_lenient_witness :
    decodeStr (strLit "cmVwb3J0LnBkZg=!") =
        decodeStr ((strLit "cmVwb3J0LnBkZg=!").filter (fun c => (decodeB64Code c).isSome)) ∧
      decodeStr (strLit "/w==") = [0xFFFD] ∧
      decodeStr (encodeStr (strLit "a")) = strLit "a" :=
  C6_decode_total_lenient (strLit "cmVwb3J0LnBkZg=!") (strLit "a") (by decide)

/-- C7 counterexample: with the credential absent (`env = none`), an upload
whose backend call fails with a generic network error surfaces exactly that
generic error — not a `configurationMissing` error — so operations do not fail
fast on missing configuration. -/
theorem C7_counterexample :
    uploadFileToBlobOp none (strLit "a.txt") (strLit "0") (strLit "x")
        (Except.error "getaddrinfo ENOTFOUND") none =
      Except.error (OpError.backend "getaddrinfo ENOTFOUND") ∧
    OpError.backend "getaddrinfo ENOTFOUND" ≠ OpError.configurationMissing :=
  ⟨rfl, by decide⟩

/-- C7 (amended): a missing credential changes no operation's behavior — the
module merely logs at load time (`logsMissingCredential`) and hands the empty
connection string to the external SDK constructor unguarded; every operation
surfaces the backend's own error unchanged and never produces a
`configurationMissing` error. -/
theorem C7_no_config_handling (env env2 : Option String)
    (filePath timestamp randomId : Str) (backendOutcome : Except String Unit)
    (rb : Option (List (String × Str))) (msg : String) :
    uploadFileToBlobOp env filePath timestamp randomId backendOutcome rb =
      uploadFileToBlobOp env2 filePath timestamp randomId backendOutcome rb ∧
    uploadFileToBlobOp env filePath timestamp randomId (Except.error msg) rb =
      Except.error (OpError.backend msg) ∧
    logsMissingCredential none = true := by
  refine ⟨?_, rfl, by decide⟩
  cases backendOutcome <;> rfl

/-- C8 (code bug): the derived storage key is not always ASCII — for the
declared filename `"ท.ไทย"` (non-ASCII characters also in the extension part),
the synthesized key keeps the raw extension verbatim, so the key itself
contains Thai characters, violating the ASCII-safe key constraint. -/
theorem C8_nonAscii_key_leak :
    safeBlobName (strLit "ท.ไทย") (strLit "0") (strLit "abc") = strLit "file-0-abc.ไทย" ∧
    hasNonAsciiChars (safeBlobName (strLit "ท.ไทย") (strLit "0") (strLit "abc")) = true :=
  ⟨by decide, by decide⟩

/-- C9: for every input string, every character of the encoder's output lies
in the declared safe alphabet (the 64 base64 characters plus padding), so the
output needs no further escaping in the metadata channel. -/
theorem C9_encode_safe_alphabet (x : Str) : ∀ c ∈ encodeStr x, c ∈ b64SafeAlphabet :=
  base64Encode_mem (utf8Encode x)

/-- Witness for C9 at the first output character of the encoding of `"ท"`. -/
theorem C9_encode_safe_alphabet_witness :
    (52 : Nat) ∈ encodeStr (strLit "ท") ∧ (52 : Nat) ∈ b64SafeAlphabet :=
  ⟨by decide, C9_encode_safe_alphabet (strLit "ท") 52 (by decide)⟩

/-- C10: every listing entry has `originalName` and `decodedName` both null or
both non-null; when the stored metadata holds a non-empty value v under the
read key, `originalName` is the token v verbatim (not the declared Unicode
filename), `decodedName` is its base64 decoding, and the frontend preference
`originalName || decodedName || name` displays the encoded token v itself. -/
theorem C10_listing_entry_invariant (b : StoredBlob) (m : List (String × Str)) (v : Str)
    (hm : b.metadata = some m) (hv : metaLookup "originalfilename" m = some v)
    (hne : v ≠ []) :
    ((listEntry b).originalName = some v ∧
      (listEntry b).decodedName = some (decodeStr v) ∧
      displayName (listEntry b) = v) ∧
    ∀ b2 : StoredBlob,
      ((listEntry b2).originalName = none ↔ (listEntry b2).decodedName = none) := by
  constructor
  · unfold listEntry
    rw [hm]
    dsimp only
    rw [hv]
    dsimp only
    rw [if_neg hne]
    refine ⟨rfl, rfl, ?_⟩
    unfold displayName jsOr
    dsimp only
    rw [if_neg hne]
  · intro b2
    unfold listEntry
    cases hb : b2.metadata with
    | none => simp
    | some m2 =>
      dsimp only
      cases hlk : metaLookup "originalfilename" m2 with
      | none => simp
      | some v2 =>
        by_cases hv2 : v2 = []
        · simp [hv2]
        · simp [hv2]

/-- Witness for C10 at a one-pair metadata map holding the token `"4LiX"`. -/
theorem C10_listing_entry_invariant_witness :
    (listEntry ⟨strLit "k", some [("originalfilename", strLit "4LiX")]⟩).originalName =
        some (strLit "4LiX") ∧
      (listEntry ⟨strLit "k", some [("originalfilename", strLit "4LiX")]⟩).decodedName =
        some (decodeStr (strLit "4LiX")) ∧
      displayName (listEntry ⟨strLit "k", some [("originalfilename", strLit "4LiX")]⟩) =
        strLit "4LiX" :=
  (C10_listing_entry_invariant ⟨strLit "k", some [("originalfilename", strLit "4LiX")]⟩
    [("originalfilename", strLit "4LiX")] (strLit "4LiX") rfl rfl (by decide)).1

end BlobService
